import Mathlib

/-!
# TicTacToe: the `Gameboard` and `GameController` modules of `script.js`

A shallow embedding of the game core of `src/script.js`.

* The module-level variable `board` of `Gameboard` is a `List String`.
  A JavaScript array read `board[i]` yields `undefined` outside the array; the
  embedding reads cells as `Option String`, with `none` for `undefined`.
* The four module-level variables of `GameController` (`player1`, `player2`,
  `currentPlayer`, `gameOver`) are declared without an initial value, so each
  is `undefined` until `start` runs: each is an `Option`.
* `currentPlayer` is a reference to one of the two player objects; the
  embedding records which of the two it refers to (`PlayerRef`), so that the
  identity comparison `currentPlayer === player1` is a comparison of tags.
* Reading `currentPlayer.mark` while `currentPlayer` is `undefined` throws a
  `TypeError`; `playTurn` therefore returns in `Except`.
* Of `DisplayController` only the call `startGame` makes to `GameController.start`
  is embedded: the names it passes, `value || "Player 1"` and `value || "Player 2"`.
  The rendering code reads the game state and does not change it.
-/

namespace TicTacToe

/-! ## JavaScript values -/

/-- Truthiness of a value that is a string, `undefined` or `null`:
only a non-empty string is truthy. -/
def truthy : Option String → Bool
  | none => false
  | some s => s != ""

/-- Truthiness of a value that is a boolean or `undefined`. -/
def truthyFlag : Option Bool → Bool
  | none => false
  | some b => b

/-- The array read `board[index]` for an integer `index`:
`none` stands for `undefined` (index negative or past the end). -/
def readCell (board : List String) (index : Int) : Option String :=
  if 0 ≤ index then board[index.toNat]? else none

/-! ## Gameboard -/

namespace Gameboard

/-- The array literal that `reset` (and the module initialiser) assigns to `board`. -/
def reset : List String := ["", "", "", "", "", "", "", "", ""]

/-- `setMark(index, mark)`: the returned boolean and the board afterwards. -/
def setMark (board : List String) (index : Int) (mark : String) : Bool × List String :=
  if readCell board index = some "" then
    (true, board.set index.toNat mark)
  else
    (false, board)

/-- The constant `winPatterns` of `checkWin`: rows, columns, diagonals. -/
def winPatterns : List (Nat × Nat × Nat) :=
  [(0, 1, 2), (3, 4, 5), (6, 7, 8),
   (0, 3, 6), (1, 4, 7), (2, 5, 8),
   (0, 4, 8), (2, 4, 6)]

/-- The `for (let pattern of ...)` loop of `checkWin` over a list of patterns:
returns `board[a]` at the first pattern that passes the test, `none` (`null`)
when the loop runs to its end. -/
def checkWinLoop (board : List String) : List (Nat × Nat × Nat) → Option String
  | [] => none
  | (a, b, c) :: rest =>
    if truthy board[a]? && (board[a]? == board[b]?) && (board[a]? == board[c]?) then
      board[a]?
    else
      checkWinLoop board rest

/-- `checkWin()`: `some mark` or `none` for `null`. -/
def checkWin (board : List String) : Option String :=
  checkWinLoop board winPatterns

/-- `checkTie()`. -/
def checkTie (board : List String) : Bool :=
  board.all (fun cell => cell != "") && !truthy (checkWin board)

/-- A sequence of `setMark` calls, each given as `(index, mark)`: the list of
returned booleans, in call order, and the board after the last call. -/
def setMarks (board : List String) : List (Int × String) → List Bool × List String
  | [] => ([], board)
  | (index, mark) :: rest =>
    let r := setMark board index mark
    let rs := setMarks r.2 rest
    (r.1 :: rs.1, rs.2)

/-- Number of non-empty cells of a board. -/
def nonEmptyCount (board : List String) : Nat :=
  board.countP (fun cell => cell != "")

/-- The test of the `if` inside the loop of `checkWin`, for one pattern:
`board[a] && board[a] === board[b] && board[a] === board[c]`; true exactly when
the triple is uniform and non-empty. -/
def uniformLine (board : List String) (p : Nat × Nat × Nat) : Bool :=
  truthy board[p.1]? && (board[p.1]? == board[p.2.1]?) && (board[p.1]? == board[p.2.2]?)

/-- Number of cells of a board that hold the string `mark`. -/
def markCount (board : List String) (mark : String) : Nat :=
  board.count mark

end Gameboard

/-! ## Player -/

/-- The record built by the factory `Player(name, mark)`. -/
structure Player where
  name : String
  mark : String
  deriving DecidableEq, Repr

/-- Which of the two player objects a reference points to. -/
inductive PlayerRef where
  | player1
  | player2
  deriving DecidableEq, Repr

/-- The exception a JavaScript operation can raise in this program. -/
inductive JSError where
  | typeError
  deriving DecidableEq, Repr

/-! ## GameController -/

/-- The whole mutable state of the program core: the `board` of `Gameboard`
and the four variables of `GameController`. -/
structure GameState where
  board : List String
  player1 : Option Player
  player2 : Option Player
  currentPlayer : Option PlayerRef
  gameOver : Option Bool
  deriving DecidableEq, Repr

namespace GameController

/-- The state when the script has been loaded and `start` has not run. -/
def initial : GameState :=
  ⟨Gameboard.reset, none, none, none, none⟩

/-- `start(name1, name2)`; an argument that is `none` was not passed
(or passed as `undefined`) and takes the default value of its parameter. -/
def start (_s : GameState) (name1 name2 : Option String) : GameState :=
  ⟨Gameboard.reset,
   some ⟨name1.getD "Player 1", "X"⟩,
   some ⟨name2.getD "Player 2", "O"⟩,
   some PlayerRef.player1,
   some false⟩

/-- `getCurrentPlayer()`: the object `currentPlayer` refers to, `none` for `undefined`. -/
def getCurrentPlayer (s : GameState) : Option Player :=
  match s.currentPlayer with
  | none => none
  | some PlayerRef.player1 => s.player1
  | some PlayerRef.player2 => s.player2

/-- `isGameOver()`. -/
def isGameOver (s : GameState) : Option Bool :=
  s.gameOver

/-- `playTurn(index)`. -/
def playTurn (s : GameState) (index : Int) : Except JSError GameState :=
  if truthyFlag s.gameOver then
    Except.ok s
  else
    match getCurrentPlayer s with
    | none => Except.error JSError.typeError
    | some player =>
      let r := Gameboard.setMark s.board index player.mark
      if r.1 then
        let placed : GameState := { s with board := r.2 }
        let winner := Gameboard.checkWin placed.board
        if truthy winner then
          Except.ok { placed with gameOver := some true }
        else if Gameboard.checkTie placed.board then
          Except.ok { placed with gameOver := some true }
        else
          Except.ok { placed with
            currentPlayer :=
              if placed.currentPlayer = some PlayerRef.player1 then some PlayerRef.player2
              else some PlayerRef.player1 }
      else
        Except.ok s

/-- A finite sequence of `playTurn` calls, one per index, in order; an exception
raised by a call ends the sequence. -/
def playTurns (s : GameState) : List Int → Except JSError GameState
  | [] => Except.ok s
  | index :: rest =>
    match playTurn s index with
    | Except.ok next => playTurns next rest
    | Except.error e => Except.error e

/-- A started match: the four variables hold what `start` assigns or `playTurn`
reassigns (two player objects with the marks `"X"` and `"O"`, a reference to one
of them, a boolean) and the board has its nine cells. -/
def started (s : GameState) : Bool :=
  match s.player1, s.player2, s.currentPlayer, s.gameOver with
  | some p1, some p2, some _, some _ =>
    p1.mark == "X" && p2.mark == "O" && s.board.length == 9
  | _, _, _, _ => false

/-- The reference to the other player object. -/
def otherPlayer : PlayerRef → PlayerRef
  | PlayerRef.player1 => PlayerRef.player2
  | PlayerRef.player2 => PlayerRef.player1

/-- The consistency conditions that `start` establishes and `playTurn` maintains:
the match is started, the cells are `""`, `"X"` or `"O"`, `gameOver` agrees with
`checkWin` and `checkTie`, every uniform non-empty triple holds the mark of the
current player, and the counts of the two marks agree with whose turn it is
(when the match is over, `currentPlayer` is the player who moved last). -/
structure Consistent (s : GameState) : Prop where
  isStarted : started s = true
  cells : ∀ cell ∈ s.board, cell = "" ∨ cell = "X" ∨ cell = "O"
  notOver : s.gameOver = some false →
    Gameboard.checkWin s.board = none ∧ Gameboard.checkTie s.board = false
  over : s.gameOver = some true →
    Gameboard.checkWin s.board ≠ none ∨ Gameboard.checkTie s.board = true
  lines : ∀ p ∈ Gameboard.winPatterns, Gameboard.uniformLine s.board p = true →
    ∃ player, getCurrentPlayer s = some player ∧ s.board[p.1]? = some player.mark
  turn :
    (s.currentPlayer = some PlayerRef.player1 ∧ s.gameOver = some false ∧
      Gameboard.markCount s.board "X" = Gameboard.markCount s.board "O") ∨
    (s.currentPlayer = some PlayerRef.player2 ∧ s.gameOver = some false ∧
      Gameboard.markCount s.board "X" = Gameboard.markCount s.board "O" + 1) ∨
    (s.currentPlayer = some PlayerRef.player1 ∧ s.gameOver = some true ∧
      Gameboard.markCount s.board "X" = Gameboard.markCount s.board "O" + 1) ∨
    (s.currentPlayer = some PlayerRef.player2 ∧ s.gameOver = some true ∧
      Gameboard.markCount s.board "X" = Gameboard.markCount s.board "O")

/-! ### Sample states -/

/-- A match in progress: X holds cells 0 and 3, O holds cells 1 and 4, X to move. -/
def sampleInProgress : GameState :=
  ⟨["X", "O", "", "X", "O", "", "", "", ""],
   some ⟨"Ann", "X"⟩, some ⟨"Bob", "O"⟩, some PlayerRef.player1, some false⟩

/-- A match that is over: X has completed the column 0, 3, 6. -/
def sampleOver : GameState :=
  ⟨["X", "O", "", "X", "O", "", "X", "", ""],
   some ⟨"Ann", "X"⟩, some ⟨"Bob", "O"⟩, some PlayerRef.player1, some true⟩

end GameController

/-! ## DisplayController -/

namespace DisplayController

/-- The expression `value || fallback` on a string `value`: the fallback replaces
the empty string. -/
def orDefault (value fallback : String) : String :=
  if value = "" then fallback else value

/-- The effect of `startGame()` on the game state, given the text of the two name
inputs (`player1Input.value`, `player2Input.value`); the rendering calls that
follow do not touch the game state. -/
def startGame (s : GameState) (value1 value2 : String) : GameState :=
  GameController.start s
    (some (orDefault value1 "Player 1")) (some (orDefault value2 "Player 2"))

end DisplayController

/-! ## Lemmas on `checkWin` -/

namespace Gameboard

theorem checkWinLoop_some {board : List String} {ps : List (Nat × Nat × Nat)} {m : String}
    (h : checkWinLoop board ps = some m) :
    ∃ p ∈ ps, m ≠ "" ∧ board[p.1]? = some m ∧ board[p.2.1]? = some m ∧
      board[p.2.2]? = some m := by
  induction ps with
  | nil => simp [checkWinLoop] at h
  | cons p rest ih =>
    obtain ⟨a, b, c⟩ := p
    simp only [checkWinLoop] at h
    split at h
    · rename_i hc
      simp only [Bool.and_eq_true, beq_iff_eq] at hc
      obtain ⟨⟨ht, hab⟩, hac⟩ := hc
      rw [h] at ht hab hac
      refine ⟨(a, b, c), List.mem_cons_self _ _, ?_, h, hab.symm, hac.symm⟩
      simpa [truthy] using ht
    · obtain ⟨p, hp, hline⟩ := ih h
      exact ⟨p, List.mem_cons_of_mem _ hp, hline⟩

theorem checkWinLoop_ne_none {board : List String} {ps : List (Nat × Nat × Nat)}
    {p : Nat × Nat × Nat} {m : String} (hp : p ∈ ps) (hm : m ≠ "")
    (h1 : board[p.1]? = some m) (h2 : board[p.2.1]? = some m) (h3 : board[p.2.2]? = some m) :
    checkWinLoop board ps ≠ none := by
  induction ps with
  | nil => simp at hp
  | cons q rest ih =>
    obtain ⟨a, b, c⟩ := q
    simp only [checkWinLoop]
    split
    · rename_i hc
      simp only [Bool.and_eq_true, beq_iff_eq] at hc
      intro hnone
      rw [hnone] at hc
      simp [truthy] at hc
    · rename_i hc
      rcases List.mem_cons.mp hp with rfl | hrest
      · exfalso
        apply hc
        simp only at h1 h2 h3
        simp [h1, h2, h3, truthy, hm]
      · exact ih hrest

theorem checkWin_some_ne_empty {board : List String} {m : String}
    (h : checkWin board = some m) : m ≠ "" := by
  obtain ⟨_, _, hm, _⟩ := checkWinLoop_some h
  exact hm

theorem truthy_checkWin (board : List String) :
    truthy (checkWin board) = true ↔ checkWin board ≠ none := by
  cases h : checkWin board with
  | none => simp [truthy]
  | some m => simpa [truthy] using checkWin_some_ne_empty h

theorem checkWinLoop_cons (board : List String) (p : Nat × Nat × Nat)
    (rest : List (Nat × Nat × Nat)) :
    checkWinLoop board (p :: rest) =
      if uniformLine board p then board[p.1]? else checkWinLoop board rest := by
  obtain ⟨a, b, c⟩ := p
  rfl

theorem truthy_eq_true_iff (v : Option String) :
    truthy v = true ↔ ∃ m, m ≠ "" ∧ v = some m := by
  cases v with
  | none => simp [truthy]
  | some s => simp [truthy]

theorem uniformLine_iff (board : List String) (p : Nat × Nat × Nat) :
    uniformLine board p = true ↔
      ∃ m, m ≠ "" ∧ board[p.1]? = some m ∧ board[p.2.1]? = some m ∧
        board[p.2.2]? = some m := by
  simp only [uniformLine, Bool.and_eq_true, beq_iff_eq, truthy_eq_true_iff]
  constructor
  · rintro ⟨⟨⟨m, hm, h1⟩, h2⟩, h3⟩
    exact ⟨m, hm, h1, by rw [← h2, h1], by rw [← h3, h1]⟩
  · rintro ⟨m, hm, h1, h2, h3⟩
    exact ⟨⟨⟨m, hm, h1⟩, by rw [h1, h2]⟩, by rw [h1, h3]⟩

theorem checkWinLoop_eq_none_iff (board : List String) (ps : List (Nat × Nat × Nat)) :
    checkWinLoop board ps = none ↔ ∀ p ∈ ps, uniformLine board p = false := by
  induction ps with
  | nil => simp [checkWinLoop]
  | cons p rest ih =>
    rw [checkWinLoop_cons]
    by_cases hp : uniformLine board p = true
    · obtain ⟨m, _, h1, _⟩ := (uniformLine_iff board p).mp hp
      simp [hp, h1]
    · simp only [Bool.not_eq_true] at hp
      simp [hp, ih]

theorem checkWinLoop_eq_some {board : List String} {ps : List (Nat × Nat × Nat)}
    {m : String} (h : checkWinLoop board ps = some m) :
    ∃ p ∈ ps, uniformLine board p = true ∧ board[p.1]? = some m := by
  induction ps with
  | nil => simp [checkWinLoop] at h
  | cons p rest ih =>
    rw [checkWinLoop_cons] at h
    by_cases hp : uniformLine board p = true
    · simp only [hp, if_true] at h
      exact ⟨p, List.mem_cons_self _ _, hp, h⟩
    · simp only [hp] at h
      obtain ⟨q, hq, hline⟩ := ih h
      exact ⟨q, List.mem_cons_of_mem _ hq, hline⟩

theorem uniformLine_set {board : List String} {n : Nat} {mark : String}
    {p : Nat × Nat × Nat} (hn : n < board.length)
    (h : uniformLine (board.set n mark) p = true) :
    uniformLine board p = true ∨ (board.set n mark)[p.1]? = some mark := by
  have hset : (board.set n mark)[n]? = some mark := by
    simp [List.getElem?_set, hn]
  by_cases h1 : n = p.1
  · right; rw [← h1]; exact hset
  by_cases h2 : n = p.2.1
  · right
    obtain ⟨m, _, e1, e2, _⟩ := (uniformLine_iff _ p).mp h
    rw [e1, ← e2, ← h2]; exact hset
  by_cases h3 : n = p.2.2
  · right
    obtain ⟨m, _, e1, _, e3⟩ := (uniformLine_iff _ p).mp h
    rw [e1, ← e3, ← h3]; exact hset
  left
  simpa [uniformLine, List.getElem?_set_ne h1, List.getElem?_set_ne h2,
    List.getElem?_set_ne h3] using h

theorem markCount_set {board : List String} {n : Nat} (mark c : String)
    (hcell : board[n]? = some "") (hc : c ≠ "") :
    markCount (board.set n mark) c = markCount board c + if mark = c then 1 else 0 := by
  have hn : n < board.length := by
    by_contra hge
    rw [List.getElem?_eq_none (Nat.le_of_not_lt hge)] at hcell
    exact absurd hcell (by simp)
  have hget : board[n] = "" := by
    rw [List.getElem?_eq_getElem hn] at hcell
    exact Option.some.inj hcell
  unfold markCount
  rw [List.count_set _ _ _ _ hn, hget]
  have : ("" == c) = false := by
    simp only [beq_eq_false_iff_ne]
    exact fun h => hc h.symm
  simp [this]

theorem checkTie_eq_true_iff (board : List String) :
    checkTie board = true ↔ (∀ cell ∈ board, cell ≠ "") ∧ checkWin board = none := by
  unfold checkTie
  cases hw : checkWin board with
  | none => simp [truthy]
  | some m =>
    have : truthy (some m) = true := by
      simpa [truthy] using checkWin_some_ne_empty hw
    simp [this]

theorem checkWinLoop_none_of_perm {board : List String} {ps qs : List (Nat × Nat × Nat)}
    (hperm : List.Perm ps qs) :
    checkWinLoop board ps = none ↔ checkWinLoop board qs = none := by
  rw [checkWinLoop_eq_none_iff, checkWinLoop_eq_none_iff]
  exact ⟨fun h p hp => h p (hperm.mem_iff.mpr hp), fun h p hp => h p (hperm.mem_iff.mp hp)⟩

theorem checkWinLoop_perm {board : List String} {ps qs : List (Nat × Nat × Nat)}
    (hperm : List.Perm ps qs)
    (hsame : ∀ p ∈ qs, ∀ q ∈ qs, uniformLine board p = true → uniformLine board q = true →
      board[p.1]? = board[q.1]?) :
    checkWinLoop board ps = checkWinLoop board qs := by
  cases h1 : checkWinLoop board ps with
  | none => exact ((checkWinLoop_none_of_perm hperm).mp h1).symm
  | some m =>
    obtain ⟨p, hp, hline, hm⟩ := checkWinLoop_eq_some h1
    cases h2 : checkWinLoop board qs with
    | none =>
      rw [(checkWinLoop_none_of_perm hperm).mpr h2] at h1
      exact absurd h1 (by simp)
    | some m' =>
      obtain ⟨q, hq, hlineq, hm'⟩ := checkWinLoop_eq_some h2
      have := hsame p (hperm.mem_iff.mp hp) q hq hline hlineq
      rw [hm, hm'] at this
      exact this

end Gameboard

/-! ## Lemmas on cell reads -/

theorem readCell_nonneg {board : List String} {index : Int} {c : String}
    (h : readCell board index = some c) : 0 ≤ index := by
  unfold readCell at h
  by_contra hneg
  simp [hneg] at h

theorem readCell_lt_length {board : List String} {index : Int} {c : String}
    (h : readCell board index = some c) : index.toNat < board.length := by
  have h0 := readCell_nonneg h
  simp only [readCell, h0, if_true] at h
  by_contra hge
  rw [List.getElem?_eq_none (Nat.le_of_not_lt hge)] at h
  exact absurd h (by simp)

/-! ## Lemmas on the count of non-empty cells -/

theorem nonEmptyCount_set {board : List String} {n : Nat} {mark : String}
    (hcell : board[n]? = some "") (hmark : mark ≠ "") :
    Gameboard.nonEmptyCount (board.set n mark) = Gameboard.nonEmptyCount board + 1 := by
  induction board generalizing n with
  | nil => simp at hcell
  | cons cell rest ih =>
    cases n with
    | zero =>
      simp only [List.getElem?_cons_zero, Option.some.injEq] at hcell
      subst hcell
      simp [Gameboard.nonEmptyCount, List.countP_cons, hmark]
    | succ k =>
      simp only [List.getElem?_cons_succ] at hcell
      have := ih hcell
      simp only [Gameboard.nonEmptyCount, List.set_cons_succ, List.countP_cons] at this ⊢
      omega

theorem nonEmptyCount_setMark (board : List String) (index : Int) (mark : String)
    (hmark : mark ≠ "") :
    Gameboard.nonEmptyCount (Gameboard.setMark board index mark).2 =
      Gameboard.nonEmptyCount board + if (Gameboard.setMark board index mark).1 then 1 else 0 := by
  unfold Gameboard.setMark
  by_cases hcell : readCell board index = some ""
  · have h0 := readCell_nonneg hcell
    simp only [hcell, if_true]
    apply nonEmptyCount_set _ hmark
    simpa [readCell, h0] using hcell
  · simp [hcell]

theorem nonEmptyCount_setMarks (board : List String) (calls : List (Int × String))
    (hmarks : ∀ call ∈ calls, call.2 ≠ "") :
    Gameboard.nonEmptyCount (Gameboard.setMarks board calls).2 =
      Gameboard.nonEmptyCount board + (Gameboard.setMarks board calls).1.count true := by
  induction calls generalizing board with
  | nil => simp [Gameboard.setMarks]
  | cons call rest ih =>
    obtain ⟨index, mark⟩ := call
    have hmark : mark ≠ "" := hmarks (index, mark) (List.mem_cons_self _ _)
    have hrest := ih (Gameboard.setMark board index mark).2
      (fun c hc => hmarks c (List.mem_cons_of_mem _ hc))
    have hstep := nonEmptyCount_setMark board index mark hmark
    simp only [Gameboard.setMarks, List.count_cons]
    rw [hrest, hstep]
    cases (Gameboard.setMark board index mark).1
    · simp
    · simp; omega

/-! ## Lemmas on `playTurn` -/

theorem started_getCurrentPlayer {s : GameState} (hs : GameController.started s = true) :
    ∃ r player, s.currentPlayer = some r ∧ GameController.getCurrentPlayer s = some player := by
  obtain ⟨board, p1, p2, cur, over⟩ := s
  cases p1 <;> cases p2 <;> cases cur <;> cases over <;> simp [GameController.started] at hs
  rename_i a b r o
  cases r <;> simp [GameController.getCurrentPlayer]

/-- What `playTurn` does on a match that is not over and whose current player is defined. -/
theorem playTurn_of_not_over {s : GameState} {player : Player} (index : Int)
    (hover : truthyFlag s.gameOver = false) (hp : GameController.getCurrentPlayer s = some player) :
    GameController.playTurn s index = Except.ok
      (if readCell s.board index = some "" then
        if Gameboard.checkWin (s.board.set index.toNat player.mark) ≠ none ∨
            Gameboard.checkTie (s.board.set index.toNat player.mark) = true then
          { s with board := s.board.set index.toNat player.mark, gameOver := some true }
        else
          { s with
            board := s.board.set index.toNat player.mark,
            currentPlayer :=
              if s.currentPlayer = some PlayerRef.player1 then some PlayerRef.player2
              else some PlayerRef.player1 }
      else s) := by
  unfold GameController.playTurn
  simp only [hover, hp, Gameboard.setMark]
  by_cases hcell : readCell s.board index = some ""
  · simp only [hcell, if_true]
    by_cases hw : Gameboard.checkWin (s.board.set index.toNat player.mark) = none
    · have ht : truthy (Gameboard.checkWin (s.board.set index.toNat player.mark)) = false := by
        rw [hw]; rfl
      by_cases htie : Gameboard.checkTie (s.board.set index.toNat player.mark) = true
      · simp [hw, truthy, htie]
      · simp [hw, truthy, htie]
    · have ht := (Gameboard.truthy_checkWin _).mpr hw
      simp [hw, ht]
  · simp [hcell]

/-! ## Lemmas on consistency of reachable states -/

section Consistency

open GameController

theorem readCell_eq_getElem? {board : List String} {index : Int} {c : String}
    (h : readCell board index = some c) : board[index.toNat]? = some c := by
  have h0 := readCell_nonneg h
  simpa [readCell, h0] using h

theorem started_cases {s : GameState} (hs : started s = true) :
    ∃ n1 n2 r g, s = ⟨s.board, some ⟨n1, "X"⟩, some ⟨n2, "O"⟩, some r, some g⟩ ∧
      s.board.length = 9 := by
  obtain ⟨board, p1, p2, cur, over⟩ := s
  cases p1 <;> cases p2 <;> cases cur <;> cases over <;> simp [started] at hs
  rename_i a b r g
  obtain ⟨⟨ha, hb⟩, hlen⟩ := hs
  obtain ⟨an, am⟩ := a
  obtain ⟨bn, bm⟩ := b
  simp only at ha hb
  subst ha hb
  exact ⟨an, bn, r, g, rfl, hlen⟩

theorem consistent_start (s : GameState) (name1 name2 : Option String) :
    Consistent (start s name1 name2) where
  isStarted := by simp [start, started, Gameboard.reset]
  cells := by simp [start, Gameboard.reset]
  notOver := fun _ => by
    simp only [start]
    decide
  over := by simp [start]
  lines := by
    intro p hp hline
    have hnone : ∀ q ∈ Gameboard.winPatterns,
        Gameboard.uniformLine Gameboard.reset q = false := by decide
    have := hnone p hp
    simp only [start] at hline
    rw [this] at hline
    exact absurd hline (by simp)
  turn := by
    left
    refine ⟨rfl, rfl, ?_⟩
    simp only [start]
    decide

/-- A placement on a consistent match that is not over: the state after writing
`mark` (the mark of the current player `r`) into the empty cell `n` and taking the
branch of `playTurn` that the new board selects is again consistent. -/
theorem consistent_place {board : List String} {n1 n2 : String} {r : PlayerRef}
    {n : Nat} {mark : String}
    (h : Consistent ⟨board, some ⟨n1, "X"⟩, some ⟨n2, "O"⟩, some r, some false⟩)
    (hcell : board[n]? = some "")
    (hmark : (r = PlayerRef.player1 ∧ mark = "X") ∨ (r = PlayerRef.player2 ∧ mark = "O")) :
    Consistent
      (if Gameboard.checkWin (board.set n mark) ≠ none ∨
          Gameboard.checkTie (board.set n mark) = true then
        ⟨board.set n mark, some ⟨n1, "X"⟩, some ⟨n2, "O"⟩, some r, some true⟩
      else
        ⟨board.set n mark, some ⟨n1, "X"⟩, some ⟨n2, "O"⟩,
          if some r = some PlayerRef.player1 then some PlayerRef.player2
          else some PlayerRef.player1,
          some false⟩) := by
  have hn : n < board.length := by
    by_contra hge
    rw [List.getElem?_eq_none (Nat.le_of_not_lt hge)] at hcell
    exact absurd hcell (by simp)
  have hlen : board.length = 9 := by
    have := h.isStarted
    simpa [started] using this
  have hcells : ∀ cell ∈ board.set n mark, cell = "" ∨ cell = "X" ∨ cell = "O" := by
    intro cell hmem
    rcases List.mem_or_eq_of_mem_set hmem with hold | hnew
    · exact h.cells cell hold
    · rcases hmark with ⟨_, hm⟩ | ⟨_, hm⟩ <;> simp [hnew, hm]
  have hX := Gameboard.markCount_set mark "X" hcell (by decide)
  have hO := Gameboard.markCount_set mark "O" hcell (by decide)
  have hold : ∀ p ∈ Gameboard.winPatterns, Gameboard.uniformLine board p = false :=
    (Gameboard.checkWinLoop_eq_none_iff board _).mp (h.notOver rfl).1
  have hturn := h.turn
  simp only [Option.some.injEq, reduceCtorEq, false_and, and_false, or_false, true_and]
    at hturn
  by_cases hend : Gameboard.checkWin (board.set n mark) ≠ none ∨
      Gameboard.checkTie (board.set n mark) = true
  · rw [if_pos hend]
    refine ⟨by simp [started, hlen], hcells, by simp, fun _ => hend, ?_, ?_⟩
    · intro p hp hline
      rcases Gameboard.uniformLine_set hn hline with hwas | hnow
      · rw [hold p hp] at hwas
        exact absurd hwas (by simp)
      · rcases hmark with ⟨hr, hm⟩ | ⟨hr, hm⟩
        · exact ⟨⟨n1, "X"⟩, by simp [getCurrentPlayer, hr], by simpa [hm] using hnow⟩
        · exact ⟨⟨n2, "O"⟩, by simp [getCurrentPlayer, hr], by simpa [hm] using hnow⟩
    · rcases hmark with ⟨hr, hm⟩ | ⟨hr, hm⟩
      · subst hr hm
        simp only [reduceCtorEq, false_and, or_false, true_and] at hturn
        simp only [Option.some.injEq, reduceCtorEq, false_and, and_false, or_false,
          true_and, false_or]
        simp at hX hO
        omega
      · subst hr hm
        simp only [reduceCtorEq, false_and, false_or, true_and] at hturn
        simp only [Option.some.injEq, reduceCtorEq, false_and, and_false, or_false,
          true_and, false_or]
        simp at hX hO
        omega
  · rw [if_neg hend]
    simp only [not_or, not_not, Bool.not_eq_true] at hend
    have hnew : ∀ p ∈ Gameboard.winPatterns,
        Gameboard.uniformLine (board.set n mark) p = false :=
      (Gameboard.checkWinLoop_eq_none_iff _ _).mp hend.1
    refine ⟨?_, hcells, fun _ => hend, by simp, ?_, ?_⟩
    · cases r <;> simp [started, hlen]
    · intro p hp hline
      rw [hnew p hp] at hline
      exact absurd hline (by simp)
    · rcases hmark with ⟨hr, hm⟩ | ⟨hr, hm⟩
      · subst hr hm
        simp only [reduceCtorEq, false_and, or_false, true_and] at hturn
        simp at hX hO
        simp
        omega
      · subst hr hm
        simp only [reduceCtorEq, false_and, false_or, true_and] at hturn
        simp at hX hO
        simp
        omega

theorem consistent_playTurn {s : GameState} (h : Consistent s) (index : Int) :
    ∃ t, playTurn s index = Except.ok t ∧ Consistent t := by
  obtain ⟨n1, n2, r, g, hs, _⟩ := started_cases h.isStarted
  generalize s.board = board at hs
  subst hs
  cases g with
  | true => exact ⟨_, by simp [playTurn, truthyFlag], h⟩
  | false =>
    have hflag : truthyFlag (some false) = false := rfl
    by_cases hcell : readCell board index = some ""
    · have hget := readCell_eq_getElem? hcell
      cases r with
      | player1 =>
        have hp : getCurrentPlayer ⟨board, some ⟨n1, "X"⟩, some ⟨n2, "O"⟩,
            some PlayerRef.player1, some false⟩ = some ⟨n1, "X"⟩ := rfl
        refine ⟨_, playTurn_of_not_over index hflag hp, ?_⟩
        simp only [hcell, if_true]
        exact consistent_place h hget (Or.inl ⟨rfl, rfl⟩)
      | player2 =>
        have hp : getCurrentPlayer ⟨board, some ⟨n1, "X"⟩, some ⟨n2, "O"⟩,
            some PlayerRef.player2, some false⟩ = some ⟨n2, "O"⟩ := rfl
        refine ⟨_, playTurn_of_not_over index hflag hp, ?_⟩
        simp only [hcell, if_true]
        exact consistent_place h hget (Or.inr ⟨rfl, rfl⟩)
    · obtain ⟨_, player, _, hp⟩ := started_getCurrentPlayer h.isStarted
      refine ⟨_, playTurn_of_not_over index hflag hp, ?_⟩
      simpa [hcell] using h

theorem consistent_playTurns {s : GameState} (h : Consistent s) (indices : List Int) :
    ∃ t, playTurns s indices = Except.ok t ∧ Consistent t := by
  induction indices generalizing s with
  | nil => exact ⟨s, rfl, h⟩
  | cons index rest ih =>
    obtain ⟨next, hstep, hnext⟩ := consistent_playTurn h index
    obtain ⟨t, hrun, ht⟩ := ih hnext
    exact ⟨t, by simp only [playTurns, hstep, hrun], ht⟩

/-- Every state reached from `start` by `playTurn` calls exists (no call throws)
and is consistent. -/
theorem consistent_reachable (s : GameState) (name1 name2 : Option String)
    (indices : List Int) :
    ∃ t, playTurns (start s name1 name2) indices = Except.ok t ∧ Consistent t :=
  consistent_playTurns (consistent_start s name1 name2) indices

theorem consistent_lines_same {t : GameState} (ht : Consistent t) :
    ∀ p ∈ Gameboard.winPatterns, ∀ q ∈ Gameboard.winPatterns,
      Gameboard.uniformLine t.board p = true → Gameboard.uniformLine t.board q = true →
      t.board[p.1]? = t.board[q.1]? := by
  intro p hp q hq hlp hlq
  obtain ⟨a, ha, hpa⟩ := ht.lines p hp hlp
  obtain ⟨b, hb, hqb⟩ := ht.lines q hq hlq
  rw [ha] at hb
  cases hb
  rw [hpa, hqb]

theorem consistent_gameOver_cases {t : GameState} (ht : Consistent t) :
    t.gameOver = some false ∨ t.gameOver = some true := by
  obtain ⟨_, _, _, g, hs, _⟩ := started_cases ht.isStarted
  rw [hs]
  cases g <;> simp

end Consistency

/-! ## Lemmas on concrete runs -/

section Runs

open GameController

theorem opening_moves : ∀ i ∈ List.range 9, ∀ j ∈ List.range 9, i ≠ j →
    Gameboard.reset[i]? = some "" ∧
    Gameboard.checkWin (Gameboard.reset.set i "X") = none ∧
    Gameboard.checkTie (Gameboard.reset.set i "X") = false ∧
    (Gameboard.reset.set i "X")[j]? = some "" ∧
    Gameboard.checkWin ((Gameboard.reset.set i "X").set j "O") = none ∧
    Gameboard.checkTie ((Gameboard.reset.set i "X").set j "O") = false := by
  decide

theorem playTurn_player1 (board : List String) (n1 n2 m1 m2 : String) (index : Int) :
    playTurn ⟨board, some ⟨n1, m1⟩, some ⟨n2, m2⟩, some PlayerRef.player1, some false⟩ index =
      Except.ok
        (if readCell board index = some "" then
          if Gameboard.checkWin (board.set index.toNat m1) ≠ none ∨
              Gameboard.checkTie (board.set index.toNat m1) = true then
            ⟨board.set index.toNat m1, some ⟨n1, m1⟩, some ⟨n2, m2⟩,
              some PlayerRef.player1, some true⟩
          else
            ⟨board.set index.toNat m1, some ⟨n1, m1⟩, some ⟨n2, m2⟩,
              some PlayerRef.player2, some false⟩
        else
          ⟨board, some ⟨n1, m1⟩, some ⟨n2, m2⟩, some PlayerRef.player1, some false⟩) :=
  @playTurn_of_not_over _ ⟨n1, m1⟩ index rfl rfl

theorem playTurn_player2 (board : List String) (n1 n2 m1 m2 : String) (index : Int) :
    playTurn ⟨board, some ⟨n1, m1⟩, some ⟨n2, m2⟩, some PlayerRef.player2, some false⟩ index =
      Except.ok
        (if readCell board index = some "" then
          if Gameboard.checkWin (board.set index.toNat m2) ≠ none ∨
              Gameboard.checkTie (board.set index.toNat m2) = true then
            ⟨board.set index.toNat m2, some ⟨n1, m1⟩, some ⟨n2, m2⟩,
              some PlayerRef.player2, some true⟩
          else
            ⟨board.set index.toNat m2, some ⟨n1, m1⟩, some ⟨n2, m2⟩,
              some PlayerRef.player1, some false⟩
        else
          ⟨board, some ⟨n1, m1⟩, some ⟨n2, m2⟩, some PlayerRef.player2, some false⟩) :=
  @playTurn_of_not_over _ ⟨n2, m2⟩ index rfl rfl

/-- The five states of the scenario 0, 1, 3, 4, 6 after `start`, for any names. -/
theorem column_win_steps (n1 n2 : String) :
    playTurn ⟨Gameboard.reset, some ⟨n1, "X"⟩, some ⟨n2, "O"⟩, some PlayerRef.player1,
        some false⟩ 0 =
      Except.ok ⟨["X", "", "", "", "", "", "", "", ""], some ⟨n1, "X"⟩, some ⟨n2, "O"⟩,
        some PlayerRef.player2, some false⟩ ∧
    playTurn ⟨["X", "", "", "", "", "", "", "", ""], some ⟨n1, "X"⟩, some ⟨n2, "O"⟩,
        some PlayerRef.player2, some false⟩ 1 =
      Except.ok ⟨["X", "O", "", "", "", "", "", "", ""], some ⟨n1, "X"⟩, some ⟨n2, "O"⟩,
        some PlayerRef.player1, some false⟩ ∧
    playTurn ⟨["X", "O", "", "", "", "", "", "", ""], some ⟨n1, "X"⟩, some ⟨n2, "O"⟩,
        some PlayerRef.player1, some false⟩ 3 =
      Except.ok ⟨["X", "O", "", "X", "", "", "", "", ""], some ⟨n1, "X"⟩, some ⟨n2, "O"⟩,
        some PlayerRef.player2, some false⟩ ∧
    playTurn ⟨["X", "O", "", "X", "", "", "", "", ""], some ⟨n1, "X"⟩, some ⟨n2, "O"⟩,
        some PlayerRef.player2, some false⟩ 4 =
      Except.ok ⟨["X", "O", "", "X", "O", "", "", "", ""], some ⟨n1, "X"⟩, some ⟨n2, "O"⟩,
        some PlayerRef.player1, some false⟩ ∧
    playTurn ⟨["X", "O", "", "X", "O", "", "", "", ""], some ⟨n1, "X"⟩, some ⟨n2, "O"⟩,
        some PlayerRef.player1, some false⟩ 6 =
      Except.ok ⟨["X", "O", "", "X", "O", "", "X", "", ""], some ⟨n1, "X"⟩, some ⟨n2, "O"⟩,
        some PlayerRef.player1, some true⟩ := by
  refine ⟨?_, ?_, ?_, ?_, ?_⟩
  · rw [playTurn_player1, if_pos (by decide), if_neg (by decide)]; rfl
  · rw [playTurn_player2, if_pos (by decide), if_neg (by decide)]; rfl
  · rw [playTurn_player1, if_pos (by decide), if_neg (by decide)]; rfl
  · rw [playTurn_player2, if_pos (by decide), if_neg (by decide)]; rfl
  · rw [playTurn_player1, if_pos (by decide), if_pos (by decide)]; rfl

theorem playTurn_effect {s t : GameState} {index : Int} (h : Consistent s)
    (hstep : playTurn s index = Except.ok t) :
    (s.gameOver = some true ∧ t = s) ∨
    (s.gameOver = some false ∧ readCell s.board index ≠ some "" ∧ t = s) ∨
    (s.gameOver = some false ∧ readCell s.board index = some "" ∧
      ∃ mark, (mark = "X" ∨ mark = "O") ∧ t.board = s.board.set index.toNat mark) := by
  obtain ⟨n1, n2, r, g, hs, _⟩ := started_cases h.isStarted
  generalize s.board = board at hs
  subst hs
  cases g with
  | true =>
    left
    have : playTurn ⟨board, some ⟨n1, "X"⟩, some ⟨n2, "O"⟩, some r, some true⟩ index =
        Except.ok ⟨board, some ⟨n1, "X"⟩, some ⟨n2, "O"⟩, some r, some true⟩ := by
      simp [playTurn, truthyFlag]
    rw [this] at hstep
    exact ⟨rfl, (Except.ok.inj hstep).symm⟩
  | false =>
    right
    by_cases hcell : readCell board index = some ""
    · right
      refine ⟨rfl, hcell, ?_⟩
      cases r with
      | player1 =>
        rw [playTurn_player1, if_pos hcell] at hstep
        refine ⟨"X", Or.inl rfl, ?_⟩
        have := Except.ok.inj hstep
        rw [← this]
        split <;> rfl
      | player2 =>
        rw [playTurn_player2, if_pos hcell] at hstep
        refine ⟨"O", Or.inr rfl, ?_⟩
        have := Except.ok.inj hstep
        rw [← this]
        split <;> rfl
    · left
      refine ⟨rfl, hcell, ?_⟩
      cases r with
      | player1 =>
        rw [playTurn_player1, if_neg hcell] at hstep
        exact (Except.ok.inj hstep).symm
      | player2 =>
        rw [playTurn_player2, if_neg hcell] at hstep
        exact (Except.ok.inj hstep).symm

theorem readCell_set_of_ne_empty {board : List String} {index k : Int} {mark c : String}
    (hcell : readCell board index = some "") (hk : readCell board k = some c) (hc : c ≠ "") :
    readCell (board.set index.toNat mark) k = some c := by
  have hi0 := readCell_nonneg hcell
  have hk0 := readCell_nonneg hk
  have hne : index.toNat ≠ k.toNat := by
    intro heq
    have h1 := readCell_eq_getElem? hcell
    have h2 := readCell_eq_getElem? hk
    rw [heq, h2] at h1
    exact hc (Option.some.inj h1)
  simp only [readCell, hk0, if_true, List.getElem?_set_ne hne]
  exact readCell_eq_getElem? hk

theorem playTurn_keeps_marks {s t : GameState} {index : Int} (h : Consistent s)
    (hstep : playTurn s index = Except.ok t) {k : Int} {c : String}
    (hk : readCell s.board k = some c) (hc : c ≠ "") : readCell t.board k = some c := by
  rcases playTurn_effect h hstep with ⟨_, rfl⟩ | ⟨_, _, rfl⟩ | ⟨_, hcell, mark, _, hboard⟩
  · exact hk
  · exact hk
  · rw [hboard]
    exact readCell_set_of_ne_empty hcell hk hc

theorem playTurn_marks_index {s t : GameState} {index : Int} (h : Consistent s)
    (hstep : playTurn s index = Except.ok t) (hnot : t.gameOver = some false)
    (h0 : 0 ≤ index) (h9 : index < 9) :
    s.gameOver = some false ∧ ∃ c, readCell t.board index = some c ∧ c ≠ "" := by
  have hlen : s.board.length = 9 := by
    obtain ⟨_, _, _, _, _, hlen⟩ := started_cases h.isStarted
    exact hlen
  have hlt : index.toNat < s.board.length := by omega
  rcases playTurn_effect h hstep with ⟨hover, rfl⟩ | ⟨hover, hcell, rfl⟩ |
    ⟨hover, hcell, mark, hmark, hboard⟩
  · rw [hover] at hnot
    exact absurd hnot (by simp)
  · refine ⟨hover, t.board[index.toNat], ?_, ?_⟩
    · simp [readCell, h0, List.getElem?_eq_getElem hlt]
    · intro hempty
      apply hcell
      simp [readCell, h0, List.getElem?_eq_getElem hlt, hempty]
  · refine ⟨hover, mark, ?_, ?_⟩
    · rw [hboard]
      simp [readCell, h0, List.getElem?_set, hlt]
    · rcases hmark with rfl | rfl <;> decide

theorem playTurns_cons_ok {s t : GameState} {index : Int} {rest : List Int}
    (hrun : playTurns s (index :: rest) = Except.ok t) :
    ∃ next, playTurn s index = Except.ok next ∧ playTurns next rest = Except.ok t := by
  simp only [playTurns] at hrun
  cases hstep : playTurn s index with
  | error e => rw [hstep] at hrun; exact absurd hrun (by simp)
  | ok next => rw [hstep] at hrun; exact ⟨next, rfl, hrun⟩

theorem playTurns_keeps_marks {s t : GameState} {indices : List Int} (h : Consistent s)
    (hrun : playTurns s indices = Except.ok t) {k : Int} {c : String}
    (hk : readCell s.board k = some c) (hc : c ≠ "") : readCell t.board k = some c := by
  induction indices generalizing s with
  | nil =>
    simp only [playTurns] at hrun
    rw [← Except.ok.inj hrun]
    exact hk
  | cons index rest ih =>
    obtain ⟨next, hstep, hrest⟩ := playTurns_cons_ok hrun
    obtain ⟨_, hstep', hnext⟩ := consistent_playTurn h index
    rw [hstep] at hstep'
    cases hstep'
    exact ih hnext hrest (playTurn_keeps_marks h hstep hk hc)

theorem playTurns_not_over_start {s t : GameState} {indices : List Int} (h : Consistent s)
    (hrun : playTurns s indices = Except.ok t) (hnot : t.gameOver = some false) :
    s.gameOver = some false := by
  rcases consistent_gameOver_cases h with hfalse | htrue
  · exact hfalse
  · have hsame : playTurns s indices = Except.ok s := by
      induction indices with
      | nil => rfl
      | cons index rest ih =>
        have h1 : playTurn s index = Except.ok s := by
          simp [playTurn, htrue, truthyFlag]
        simp only [playTurns, h1]
        exact ih (by simpa only [playTurns, h1] using hrun)
    rw [hsame] at hrun
    cases hrun
    rw [htrue] at hnot
    exact absurd hnot (by simp)

theorem playTurns_marks_indices {s t : GameState} {indices : List Int} (h : Consistent s)
    (hrun : playTurns s indices = Except.ok t) (hnot : t.gameOver = some false) :
    ∀ k ∈ indices, 0 ≤ k → k < 9 → ∃ c, readCell t.board k = some c ∧ c ≠ "" := by
  induction indices generalizing s with
  | nil => intro k hk; simp at hk
  | cons index rest ih =>
    obtain ⟨next, hstep, hrest⟩ := playTurns_cons_ok hrun
    obtain ⟨_, hstep', hnext⟩ := consistent_playTurn h index
    rw [hstep] at hstep'
    cases hstep'
    intro k hk h0 h9
    rcases List.mem_cons.mp hk with rfl | hmem
    · have hnextnot := playTurns_not_over_start hnext hrest hnot
      obtain ⟨_, c, hc, hne⟩ := playTurn_marks_index h hstep hnextnot h0 h9
      exact ⟨c, playTurns_keeps_marks hnext hrest hc hne, hne⟩
    · exact ih hnext hrest k hmem h0 h9

end Runs

/-! ## The claims -/

/-- C1. `checkWin()` returns a non-null value iff one of the 8 fixed triples holds
three equal non-empty cells; a returned value is a non-empty mark held by all three
cells of one of the triples. The triples are the eight listed. This holds for every
board, in particular for every 9-cell board over `""`, `"X"`, `"O"`. -/
theorem checkWin_iff_uniform_triple (board : List String) :
    Gameboard.winPatterns =
        [(0, 1, 2), (3, 4, 5), (6, 7, 8), (0, 3, 6), (1, 4, 7), (2, 5, 8),
         (0, 4, 8), (2, 4, 6)] ∧
    (Gameboard.checkWin board ≠ none ↔
      ∃ p ∈ Gameboard.winPatterns, ∃ m, m ≠ "" ∧ board[p.1]? = some m ∧
        board[p.2.1]? = some m ∧ board[p.2.2]? = some m) ∧
    (∀ m, Gameboard.checkWin board = some m →
      ∃ p ∈ Gameboard.winPatterns, m ≠ "" ∧ board[p.1]? = some m ∧
        board[p.2.1]? = some m ∧ board[p.2.2]? = some m) := by
  refine ⟨rfl, ⟨?_, ?_⟩, fun m h => Gameboard.checkWinLoop_some h⟩
  · intro h
    cases hw : Gameboard.checkWin board with
    | none => exact absurd hw h
    | some m =>
      obtain ⟨p, hp, hline⟩ := Gameboard.checkWinLoop_some hw
      exact ⟨p, hp, m, hline⟩
  · rintro ⟨p, hp, m, hm, h1, h2, h3⟩
    exact Gameboard.checkWinLoop_ne_none hp hm h1 h2 h3

/-- C2. On a 9-cell board, `setMark(index, mark)` at an index whose cell reads `""`
(which places the index in [0,9)) returns true, leaves `mark` in the cell at `index`,
leaves every other cell as it was, and the board still has 9 cells. This holds for
every mark, in particular for every non-empty one. -/
theorem setMark_on_empty_cell (board : List String) (index : Int) (mark : String)
    (hlen : board.length = 9) (hcell : readCell board index = some "") :
    (Gameboard.setMark board index mark).1 = true ∧
    readCell (Gameboard.setMark board index mark).2 index = some mark ∧
    (∀ j : Int, j ≠ index →
      readCell (Gameboard.setMark board index mark).2 j = readCell board j) ∧
    (Gameboard.setMark board index mark).2.length = 9 := by
  have h0 := readCell_nonneg hcell
  have hlt := readCell_lt_length hcell
  simp only [Gameboard.setMark, hcell, if_true]
  refine ⟨trivial, ?_, ?_, by simpa using hlen⟩
  · simp [readCell, h0, hlt]
  · intro j hj
    unfold readCell
    by_cases hj0 : 0 ≤ j
    · have hne : index.toNat ≠ j.toNat := by omega
      simp [hj0, List.getElem?_set_ne hne]
    · simp [hj0]

/-- Witness for C2: placing `"X"` in the empty cell 6 of the sample board. -/
theorem setMark_on_empty_cell_witness :
    GameController.sampleInProgress.board.length = 9 ∧
    readCell GameController.sampleInProgress.board 6 = some "" ∧
    (Gameboard.setMark GameController.sampleInProgress.board 6 "X").1 = true ∧
    readCell (Gameboard.setMark GameController.sampleInProgress.board 6 "X").2 6 = some "X" ∧
    (∀ j : Int, j ≠ 6 →
      readCell (Gameboard.setMark GameController.sampleInProgress.board 6 "X").2 j =
        readCell GameController.sampleInProgress.board j) ∧
    (Gameboard.setMark GameController.sampleInProgress.board 6 "X").2.length = 9 :=
  ⟨by decide, by decide,
    setMark_on_empty_cell GameController.sampleInProgress.board 6 "X" (by decide) (by decide)⟩

/-- C3. `setMark(index, mark)` at an index whose cell holds a non-empty string `c`
returns false and leaves the board exactly as it was, for every mark. -/
theorem setMark_on_occupied_cell (board : List String) (index : Int) (mark c : String)
    (hcell : readCell board index = some c) (hc : c ≠ "") :
    Gameboard.setMark board index mark = (false, board) := by
  simp [Gameboard.setMark, hcell, hc]

/-- Witness for C3: placing `"O"` on cell 3 of the sample board, which holds `"X"`. -/
theorem setMark_on_occupied_cell_witness :
    readCell GameController.sampleInProgress.board 3 = some "X" ∧ "X" ≠ "" ∧
    Gameboard.setMark GameController.sampleInProgress.board 3 "O" =
      (false, GameController.sampleInProgress.board) :=
  ⟨by decide, by decide,
    setMark_on_occupied_cell GameController.sampleInProgress.board 3 "O" "X"
      (by decide) (by decide)⟩

/-- C4. `checkTie()` is true iff no cell is empty and `checkWin()` returns null;
whenever `checkWin()` returns a mark, `checkTie()` is false. -/
theorem checkTie_iff_full_and_no_winner (board : List String) :
    (Gameboard.checkTie board = true ↔
      (∀ cell ∈ board, cell ≠ "") ∧ Gameboard.checkWin board = none) ∧
    (∀ m, Gameboard.checkWin board = some m → Gameboard.checkTie board = false) := by
  have ht := Gameboard.truthy_checkWin board
  constructor
  · unfold Gameboard.checkTie
    cases hw : Gameboard.checkWin board with
    | none => simp [truthy]
    | some m =>
      have : truthy (some m) = true := by rw [← hw, ht, hw]; simp
      simp [this]
  · intro m hw
    have : truthy (Gameboard.checkWin board) = true := by rw [ht, hw]; simp
    simp [Gameboard.checkTie, this]

/-- C5. On a started match that is not over, `playTurn(index)` returns normally, and
afterwards `gameOver` is true iff the cell at `index` was empty (the placement
succeeded) and the resulting board has a winner (`checkWin()` non-null) or is a tie
(`checkTie()` true); in every other case `gameOver` is still false. This holds for
every integer index, in particular for every index in [0,9). -/
theorem playTurn_gameOver_iff (s : GameState) (index : Int)
    (hs : GameController.started s = true) (hover : s.gameOver = some false) :
    ∃ next, GameController.playTurn s index = Except.ok next ∧
      (next.gameOver = some true ↔
        readCell s.board index = some "" ∧
          (Gameboard.checkWin next.board ≠ none ∨ Gameboard.checkTie next.board = true)) ∧
      (next.gameOver = some true ∨ next.gameOver = some false) := by
  obtain ⟨r, player, _, hp⟩ := started_getCurrentPlayer hs
  have hflag : truthyFlag s.gameOver = false := by rw [hover]; rfl
  refine ⟨_, playTurn_of_not_over index hflag hp, ?_⟩
  by_cases hcell : readCell s.board index = some ""
  · by_cases hend : Gameboard.checkWin (s.board.set index.toNat player.mark) ≠ none ∨
        Gameboard.checkTie (s.board.set index.toNat player.mark) = true
    · simp only [hcell, hend, if_true]
      simp
    · simp only [hcell, hend, if_true, if_false]
      simp [hover]
  · simp [hcell, hover]

/-- Witness for C5: the winning move at index 6 on the sample match. -/
theorem playTurn_gameOver_iff_witness :
    GameController.started GameController.sampleInProgress = true ∧
    GameController.sampleInProgress.gameOver = some false ∧
    ∃ next, GameController.playTurn GameController.sampleInProgress 6 = Except.ok next ∧
      (next.gameOver = some true ↔
        readCell GameController.sampleInProgress.board 6 = some "" ∧
          (Gameboard.checkWin next.board ≠ none ∨ Gameboard.checkTie next.board = true)) ∧
      (next.gameOver = some true ∨ next.gameOver = some false) :=
  ⟨by decide, by decide,
    playTurn_gameOver_iff GameController.sampleInProgress 6 (by decide) (by decide)⟩

/-- C6. On a started match that is not over, `playTurn(index)` makes `currentPlayer`
refer to the other player iff the cell at `index` was empty (the placement succeeded)
and the resulting board has neither a winner nor a tie; in every other case
`currentPlayer` is unchanged. The other player is never the same reference. This holds
for every integer index, in particular for every index in [0,9). -/
theorem playTurn_currentPlayer_iff (s : GameState) (index : Int)
    (hs : GameController.started s = true) (hover : s.gameOver = some false) :
    ∃ r next, s.currentPlayer = some r ∧ GameController.playTurn s index = Except.ok next ∧
      (next.currentPlayer = some (GameController.otherPlayer r) ↔
        readCell s.board index = some "" ∧
          Gameboard.checkWin next.board = none ∧ Gameboard.checkTie next.board = false) ∧
      (next.currentPlayer = some (GameController.otherPlayer r) ∨
        next.currentPlayer = some r) ∧
      GameController.otherPlayer r ≠ r := by
  obtain ⟨r, player, hr, hp⟩ := started_getCurrentPlayer hs
  have hflag : truthyFlag s.gameOver = false := by rw [hover]; rfl
  refine ⟨r, _, hr, playTurn_of_not_over index hflag hp, ?_, ?_, by cases r <;> decide⟩
  · by_cases hcell : readCell s.board index = some ""
    · by_cases hend : Gameboard.checkWin (s.board.set index.toNat player.mark) ≠ none ∨
          Gameboard.checkTie (s.board.set index.toNat player.mark) = true
      · simp only [hcell, hend, if_true]
        rcases hend with hw | ht
        · cases r <;> simp [hr, GameController.otherPlayer, hw]
        · cases r <;> simp [hr, GameController.otherPlayer, ht]
      · simp only [hcell, hend, if_true, if_false]
        simp only [not_or, not_not, Bool.not_eq_true] at hend
        cases r <;> simp [hr, GameController.otherPlayer, hend.1, hend.2]
    · cases r <;> simp [hcell, hr, GameController.otherPlayer]
  · by_cases hcell : readCell s.board index = some ""
    · by_cases hend : Gameboard.checkWin (s.board.set index.toNat player.mark) ≠ none ∨
          Gameboard.checkTie (s.board.set index.toNat player.mark) = true
      · simp only [hcell, hend, if_true]
        exact Or.inr hr
      · simp only [hcell, hend, if_true, if_false]
        cases r <;> simp [hr, GameController.otherPlayer]
    · simp [hcell, hr]

/-- Witness for C6: the non-terminal move at index 2 on the sample match. -/
theorem playTurn_currentPlayer_iff_witness :
    GameController.started GameController.sampleInProgress = true ∧
    GameController.sampleInProgress.gameOver = some false ∧
    ∃ r next, GameController.sampleInProgress.currentPlayer = some r ∧
      GameController.playTurn GameController.sampleInProgress 2 = Except.ok next ∧
      (next.currentPlayer = some (GameController.otherPlayer r) ↔
        readCell GameController.sampleInProgress.board 2 = some "" ∧
          Gameboard.checkWin next.board = none ∧ Gameboard.checkTie next.board = false) ∧
      (next.currentPlayer = some (GameController.otherPlayer r) ∨
        next.currentPlayer = some r) ∧
      GameController.otherPlayer r ≠ r :=
  ⟨by decide, by decide,
    playTurn_currentPlayer_iff GameController.sampleInProgress 2 (by decide) (by decide)⟩

/-- C7. Once `gameOver` is true, every finite sequence of `playTurn` calls, with any
indices, returns normally and leaves the whole state (board, `currentPlayer`,
`gameOver`, and the player objects) unchanged. -/
theorem playTurns_after_gameOver (s : GameState) (indices : List Int)
    (hover : s.gameOver = some true) :
    GameController.playTurns s indices = Except.ok s := by
  induction indices with
  | nil => rfl
  | cons index rest ih =>
    have h1 : GameController.playTurn s index = Except.ok s := by
      simp [GameController.playTurn, hover, truthyFlag]
    simp only [GameController.playTurns, h1]
    exact ih

/-- Witness for C7: four further calls on the sample match that is over. -/
theorem playTurns_after_gameOver_witness :
    GameController.sampleOver.gameOver = some true ∧
    GameController.playTurns GameController.sampleOver [2, 0, 8, 5] =
      Except.ok GameController.sampleOver :=
  ⟨by decide, playTurns_after_gameOver GameController.sampleOver [2, 0, 8, 5] (by decide)⟩

/-- C8. On a started match that is not over, `playTurn(index)` at an index whose cell
holds a non-empty string changes nothing: the state afterwards is the state before. -/
theorem playTurn_on_occupied_cell (s : GameState) (index : Int) (c : String)
    (hs : GameController.started s = true) (hover : s.gameOver = some false)
    (hcell : readCell s.board index = some c) (hc : c ≠ "") :
    GameController.playTurn s index = Except.ok s := by
  obtain ⟨r, player, _, hp⟩ := started_getCurrentPlayer hs
  have hflag : truthyFlag s.gameOver = false := by rw [hover]; rfl
  rw [playTurn_of_not_over index hflag hp]
  simp [hcell, hc]

/-- Witness for C8: a move on cell 1 of the sample match, which holds `"O"`. -/
theorem playTurn_on_occupied_cell_witness :
    GameController.started GameController.sampleInProgress = true ∧
    GameController.sampleInProgress.gameOver = some false ∧
    readCell GameController.sampleInProgress.board 1 = some "O" ∧ "O" ≠ "" ∧
    GameController.playTurn GameController.sampleInProgress 1 =
      Except.ok GameController.sampleInProgress :=
  ⟨by decide, by decide, by decide, by decide,
    playTurn_on_occupied_cell GameController.sampleInProgress 1 "O"
      (by decide) (by decide) (by decide) (by decide)⟩

/-- C9. From any prior state, `start(name1, name2)` yields `player1 = {name1, "X"}`,
`player2 = {name2, "O"}`, `currentPlayer` referring to `player1`, `gameOver = false`,
and a board of 9 cells that are all empty. -/
theorem start_state (s : GameState) (name1 name2 : String) :
    (GameController.start s (some name1) (some name2)).player1 = some ⟨name1, "X"⟩ ∧
    (GameController.start s (some name1) (some name2)).player2 = some ⟨name2, "O"⟩ ∧
    GameController.getCurrentPlayer (GameController.start s (some name1) (some name2)) =
      (GameController.start s (some name1) (some name2)).player1 ∧
    (GameController.start s (some name1) (some name2)).currentPlayer =
      some PlayerRef.player1 ∧
    GameController.isGameOver (GameController.start s (some name1) (some name2)) =
      some false ∧
    (GameController.start s (some name1) (some name2)).board.length = 9 ∧
    (∀ cell ∈ (GameController.start s (some name1) (some name2)).board, cell = "") := by
  refine ⟨rfl, rfl, rfl, rfl, rfl, rfl, ?_⟩
  intro cell hcell
  simp [GameController.start, Gameboard.reset] at hcell
  exact hcell

/-- C10. After any finite sequence of `setMark` calls with non-empty marks on a freshly
reset board, the number of non-empty cells equals the number of calls that returned
true. This holds for every integer index, in particular for indices in [0,9). -/
theorem nonEmptyCount_eq_successful_setMarks (calls : List (Int × String))
    (hmarks : ∀ call ∈ calls, call.2 ≠ "") :
    Gameboard.nonEmptyCount (Gameboard.setMarks Gameboard.reset calls).2 =
      (Gameboard.setMarks Gameboard.reset calls).1.count true := by
  rw [nonEmptyCount_setMarks Gameboard.reset calls hmarks]
  simp [Gameboard.nonEmptyCount, Gameboard.reset]

/-- Witness for C10: three calls, the second on an occupied cell. -/
theorem nonEmptyCount_eq_successful_setMarks_witness :
    (∀ call ∈ [((0 : Int), "X"), (0, "O"), (4, "O")], call.2 ≠ "") ∧
    Gameboard.nonEmptyCount
        (Gameboard.setMarks Gameboard.reset [(0, "X"), (0, "O"), (4, "O")]).2 =
      (Gameboard.setMarks Gameboard.reset [(0, "X"), (0, "O"), (4, "O")]).1.count true :=
  ⟨by decide,
    nonEmptyCount_eq_successful_setMarks [(0, "X"), (0, "O"), (4, "O")] (by decide)⟩

/-- C11. For all names and all distinct indices `i`, `j` in [0,9): `start` followed
by `playTurn(i)` leaves `getCurrentPlayer()` at player2 (mark `"O"`), the further call
`playTurn(j)` brings it back to player1 (mark `"X"`), and `isGameOver()` is false after
both calls; neither call throws. -/
theorem two_turns_alternate (s : GameState) (name1 name2 : Option String) (i j : Int)
    (hi : 0 ≤ i ∧ i < 9) (hj : 0 ≤ j ∧ j < 9) (hij : i ≠ j) :
    ∃ s1 s2,
      GameController.playTurn (GameController.start s name1 name2) i = Except.ok s1 ∧
      GameController.getCurrentPlayer s1 = some ⟨name2.getD "Player 2", "O"⟩ ∧
      s1.currentPlayer = some PlayerRef.player2 ∧
      GameController.isGameOver s1 = some false ∧
      GameController.playTurn s1 j = Except.ok s2 ∧
      GameController.getCurrentPlayer s2 = some ⟨name1.getD "Player 1", "X"⟩ ∧
      s2.currentPlayer = some PlayerRef.player1 ∧
      GameController.isGameOver s2 = some false := by
  have hne : i.toNat ≠ j.toNat := by omega
  obtain ⟨h1, h2, h3, h4, h5, h6⟩ :=
    opening_moves i.toNat (List.mem_range.mpr (by omega)) j.toNat
      (List.mem_range.mpr (by omega)) hne
  have hci : readCell Gameboard.reset i = some "" := by simp [readCell, hi.1, h1]
  have hcj : readCell (Gameboard.reset.set i.toNat "X") j = some "" := by
    simp only [readCell, hj.1, if_true]
    exact h4
  have hstep1 := @playTurn_of_not_over (GameController.start s name1 name2)
    ⟨name1.getD "Player 1", "X"⟩ i rfl rfl
  have hb0 : (GameController.start s name1 name2).board = Gameboard.reset := rfl
  simp only [hb0, hci, h2, h3, if_true] at hstep1
  simp only [ne_eq, not_true_eq_false, Bool.false_eq_true, or_self, if_false] at hstep1
  have hstep1' : GameController.playTurn (GameController.start s name1 name2) i =
      Except.ok ⟨Gameboard.reset.set i.toNat "X", some ⟨name1.getD "Player 1", "X"⟩,
        some ⟨name2.getD "Player 2", "O"⟩, some PlayerRef.player2, some false⟩ := hstep1
  have hstep2 := @playTurn_of_not_over
    ⟨Gameboard.reset.set i.toNat "X", some ⟨name1.getD "Player 1", "X"⟩,
        some ⟨name2.getD "Player 2", "O"⟩, some PlayerRef.player2, some false⟩
    ⟨name2.getD "Player 2", "O"⟩ j rfl rfl
  simp only [hcj, h5, h6, if_true] at hstep2
  simp only [ne_eq, not_true_eq_false, Bool.false_eq_true, or_self, if_false] at hstep2
  exact ⟨_, _, hstep1', rfl, rfl, rfl, hstep2, rfl, rfl, rfl⟩

/-- Witness for C11: the indices 4 and 0 with the names Ann and Bob. -/
theorem two_turns_alternate_witness :
    ((0 : Int) ≤ 4 ∧ (4 : Int) < 9) ∧ ((0 : Int) ≤ 0 ∧ (0 : Int) < 9) ∧ (4 : Int) ≠ 0 ∧
    ∃ s1 s2,
      GameController.playTurn
        (GameController.start GameController.initial (some "Ann") (some "Bob")) 4 =
          Except.ok s1 ∧
      GameController.getCurrentPlayer s1 = some ⟨(some "Bob").getD "Player 2", "O"⟩ ∧
      s1.currentPlayer = some PlayerRef.player2 ∧
      GameController.isGameOver s1 = some false ∧
      GameController.playTurn s1 0 = Except.ok s2 ∧
      GameController.getCurrentPlayer s2 = some ⟨(some "Ann").getD "Player 1", "X"⟩ ∧
      s2.currentPlayer = some PlayerRef.player1 ∧
      GameController.isGameOver s2 = some false :=
  ⟨by decide, by decide, by decide,
    two_turns_alternate GameController.initial (some "Ann") (some "Bob") 4 0
      (by decide) (by decide) (by decide)⟩

/-- C12. After `start` (with any names) and the calls `playTurn(0)`, `playTurn(1)`,
`playTurn(3)`, `playTurn(4)`, `playTurn(6)`, the cells 0, 3, 6 hold `"X"`, the cells
1, 4 hold `"O"`, `checkWin()` returns `"X"` and `isGameOver()` is true; `isGameOver()`
is false after each of the first four calls. -/
theorem column_win_scenario (s : GameState) (name1 name2 : Option String) :
    (∃ t, GameController.playTurns (GameController.start s name1 name2) [0] = Except.ok t ∧
      GameController.isGameOver t = some false) ∧
    (∃ t, GameController.playTurns (GameController.start s name1 name2) [0, 1] =
        Except.ok t ∧ GameController.isGameOver t = some false) ∧
    (∃ t, GameController.playTurns (GameController.start s name1 name2) [0, 1, 3] =
        Except.ok t ∧ GameController.isGameOver t = some false) ∧
    (∃ t, GameController.playTurns (GameController.start s name1 name2) [0, 1, 3, 4] =
        Except.ok t ∧ GameController.isGameOver t = some false) ∧
    (∃ t, GameController.playTurns (GameController.start s name1 name2) [0, 1, 3, 4, 6] =
        Except.ok t ∧
      readCell t.board 0 = some "X" ∧ readCell t.board 3 = some "X" ∧
      readCell t.board 6 = some "X" ∧
      readCell t.board 1 = some "O" ∧ readCell t.board 4 = some "O" ∧
      Gameboard.checkWin t.board = some "X" ∧
      GameController.isGameOver t = some true) := by
  obtain ⟨e1, e2, e3, e4, e5⟩ :=
    column_win_steps (name1.getD "Player 1") (name2.getD "Player 2")
  have h0 : GameController.start s name1 name2 =
      ⟨Gameboard.reset, some ⟨name1.getD "Player 1", "X"⟩,
        some ⟨name2.getD "Player 2", "O"⟩, some PlayerRef.player1, some false⟩ := rfl
  rw [h0]
  generalize name1.getD "Player 1" = n1 at *
  generalize name2.getD "Player 2" = n2 at *
  have r1 : GameController.playTurns ⟨Gameboard.reset, some ⟨n1, "X"⟩, some ⟨n2, "O"⟩,
      some PlayerRef.player1, some false⟩ [0] =
      Except.ok ⟨["X", "", "", "", "", "", "", "", ""], some ⟨n1, "X"⟩, some ⟨n2, "O"⟩,
        some PlayerRef.player2, some false⟩ := by
    simp only [GameController.playTurns, e1]
  have r2 : GameController.playTurns ⟨Gameboard.reset, some ⟨n1, "X"⟩, some ⟨n2, "O"⟩,
      some PlayerRef.player1, some false⟩ [0, 1] =
      Except.ok ⟨["X", "O", "", "", "", "", "", "", ""], some ⟨n1, "X"⟩, some ⟨n2, "O"⟩,
        some PlayerRef.player1, some false⟩ := by
    simp only [GameController.playTurns, e1, e2]
  have r3 : GameController.playTurns ⟨Gameboard.reset, some ⟨n1, "X"⟩, some ⟨n2, "O"⟩,
      some PlayerRef.player1, some false⟩ [0, 1, 3] =
      Except.ok ⟨["X", "O", "", "X", "", "", "", "", ""], some ⟨n1, "X"⟩, some ⟨n2, "O"⟩,
        some PlayerRef.player2, some false⟩ := by
    simp only [GameController.playTurns, e1, e2, e3]
  have r4 : GameController.playTurns ⟨Gameboard.reset, some ⟨n1, "X"⟩, some ⟨n2, "O"⟩,
      some PlayerRef.player1, some false⟩ [0, 1, 3, 4] =
      Except.ok ⟨["X", "O", "", "X", "O", "", "", "", ""], some ⟨n1, "X"⟩, some ⟨n2, "O"⟩,
        some PlayerRef.player1, some false⟩ := by
    simp only [GameController.playTurns, e1, e2, e3, e4]
  have r5 : GameController.playTurns ⟨Gameboard.reset, some ⟨n1, "X"⟩, some ⟨n2, "O"⟩,
      some PlayerRef.player1, some false⟩ [0, 1, 3, 4, 6] =
      Except.ok ⟨["X", "O", "", "X", "O", "", "X", "", ""], some ⟨n1, "X"⟩, some ⟨n2, "O"⟩,
        some PlayerRef.player1, some true⟩ := by
    simp only [GameController.playTurns, e1, e2, e3, e4, e5]
  exact ⟨⟨_, r1, rfl⟩, ⟨_, r2, rfl⟩, ⟨_, r3, rfl⟩, ⟨_, r4, rfl⟩,
    ⟨_, r5, rfl, rfl, rfl, rfl, rfl,
      (by decide : Gameboard.checkWin ["X", "O", "", "X", "O", "", "X", "", ""] = some "X"),
      rfl⟩⟩

/-- C13. For every order in which the nine indices 0..8 are each played once after
`start`, the calls all return, and if no triple of the final board is uniform and
non-empty, then the board is full (all nine placements succeeded), `checkTie()` is
true, `checkWin()` is null and `isGameOver()` is true. -/
theorem full_order_without_line_is_tie (s : GameState) (name1 name2 : Option String)
    (order : List Int) (hperm : List.Perm order [0, 1, 2, 3, 4, 5, 6, 7, 8]) :
    ∃ t, GameController.playTurns (GameController.start s name1 name2) order =
        Except.ok t ∧
      ((∀ p ∈ Gameboard.winPatterns, Gameboard.uniformLine t.board p = false) →
        (∀ cell ∈ t.board, cell ≠ "") ∧
        Gameboard.nonEmptyCount t.board = 9 ∧
        Gameboard.checkTie t.board = true ∧
        Gameboard.checkWin t.board = none ∧
        GameController.isGameOver t = some true) := by
  obtain ⟨t, hrun, ht⟩ := consistent_reachable s name1 name2 order
  refine ⟨t, hrun, fun hno => ?_⟩
  have hw : Gameboard.checkWin t.board = none :=
    (Gameboard.checkWinLoop_eq_none_iff _ _).mpr hno
  have hlen : t.board.length = 9 := by
    obtain ⟨_, _, _, _, _, hlen⟩ := started_cases ht.isStarted
    exact hlen
  have hover : t.gameOver = some true := by
    rcases consistent_gameOver_cases ht with hfalse | htrue
    · exfalso
      have hcells := playTurns_marks_indices (consistent_start s name1 name2)
        hrun hfalse
      have hall : ∀ cell ∈ t.board, cell ≠ "" := by
        intro cell hmem
        obtain ⟨n, hn, hget⟩ := List.getElem_of_mem hmem
        have hn9 : n < 9 := by omega
        have hin : (n : Int) ∈ order := by
          apply hperm.mem_iff.mpr
          interval_cases n <;> simp
        obtain ⟨c, hc, hne⟩ := hcells n hin (by omega) (by omega)
        have hc' := readCell_eq_getElem? hc
        simp only [Int.toNat_ofNat, List.getElem?_eq_getElem hn, Option.some.injEq] at hc'
        rw [← hget, hc']
        exact hne
      have htie := (Gameboard.checkTie_eq_true_iff _).mpr ⟨hall, hw⟩
      rw [(ht.notOver hfalse).2] at htie
      exact absurd htie (by simp)
    · exact htrue
  have htie : Gameboard.checkTie t.board = true := by
    rcases ht.over hover with hwin | htie
    · exact absurd hw hwin
    · exact htie
  have hall := ((Gameboard.checkTie_eq_true_iff _).mp htie).1
  refine ⟨hall, ?_, htie, hw, hover⟩
  unfold Gameboard.nonEmptyCount
  rw [← hlen, List.countP_eq_length]
  intro cell hmem
  simpa using hall cell hmem

/-- Witness for C13: the order 0,1,2,4,3,5,7,6,8 ends in a full board without a
uniform triple. -/
theorem full_order_without_line_is_tie_witness :
    List.Perm [(0 : Int), 1, 2, 4, 3, 5, 7, 6, 8] [0, 1, 2, 3, 4, 5, 6, 7, 8] ∧
    GameController.playTurns (GameController.start GameController.initial none none)
        [0, 1, 2, 4, 3, 5, 7, 6, 8] =
      Except.ok ⟨["X", "O", "X", "X", "O", "O", "O", "X", "X"],
        some ⟨"Player 1", "X"⟩, some ⟨"Player 2", "O"⟩, some PlayerRef.player1, some true⟩ ∧
    (∀ p ∈ Gameboard.winPatterns,
      Gameboard.uniformLine ["X", "O", "X", "X", "O", "O", "O", "X", "X"] p = false) ∧
    ∃ t, GameController.playTurns (GameController.start GameController.initial none none)
        [0, 1, 2, 4, 3, 5, 7, 6, 8] = Except.ok t ∧
      ((∀ p ∈ Gameboard.winPatterns, Gameboard.uniformLine t.board p = false) →
        (∀ cell ∈ t.board, cell ≠ "") ∧
        Gameboard.nonEmptyCount t.board = 9 ∧
        Gameboard.checkTie t.board = true ∧
        Gameboard.checkWin t.board = none ∧
        GameController.isGameOver t = some true) :=
  ⟨by decide, by rfl, by decide,
    full_order_without_line_is_tie GameController.initial none none
      [0, 1, 2, 4, 3, 5, 7, 6, 8] (by decide)⟩

/-- C14. In every state reached from `start` by any sequence of `playTurn` calls
(the calls never throw), if `isGameOver()` is true and `checkWin()` returns a mark,
that mark is `getCurrentPlayer().mark`: the current player is the winner. -/
theorem winner_is_currentPlayer (s : GameState) (name1 name2 : Option String)
    (indices : List Int) :
    ∃ t, GameController.playTurns (GameController.start s name1 name2) indices =
        Except.ok t ∧
      (GameController.isGameOver t = some true →
        ∀ m, Gameboard.checkWin t.board = some m →
          ∃ player, GameController.getCurrentPlayer t = some player ∧ player.mark = m) := by
  obtain ⟨t, hrun, ht⟩ := consistent_reachable s name1 name2 indices
  refine ⟨t, hrun, fun _ m hm => ?_⟩
  obtain ⟨p, hp, hline, hcell⟩ := Gameboard.checkWinLoop_eq_some hm
  obtain ⟨player, hplayer, hmark⟩ := ht.lines p hp hline
  rw [hcell] at hmark
  exact ⟨player, hplayer, (Option.some.inj hmark).symm⟩

/-- C15 as stated fails: `start("", "")` keeps the empty names; the default value of a
parameter replaces only an argument that is `undefined`. -/
theorem start_empty_names_counterexample :
    (GameController.start GameController.initial (some "") (some "")).player1 =
      some ⟨"", "X"⟩ ∧
    (GameController.start GameController.initial (some "") (some "")).player2 =
      some ⟨"", "O"⟩ ∧
    (GameController.start GameController.initial (some "") (some "")).player1 ≠
      some ⟨"Player 1", "X"⟩ ∧
    (GameController.start GameController.initial (some "") (some "")).player2 ≠
      some ⟨"Player 2", "O"⟩ := by
  decide

/-- C15, amended. `start` called without its name arguments yields the names
`"Player 1"` and `"Player 2"`; the caller `startGame` replaces empty input text by
these names before it calls `start`, so empty inputs also yield them; `start` given
explicit strings keeps them as they are. -/
theorem default_names (s : GameState) :
    (GameController.start s none none).player1 = some ⟨"Player 1", "X"⟩ ∧
    (GameController.start s none none).player2 = some ⟨"Player 2", "O"⟩ ∧
    (DisplayController.startGame s "" "").player1 = some ⟨"Player 1", "X"⟩ ∧
    (DisplayController.startGame s "" "").player2 = some ⟨"Player 2", "O"⟩ ∧
    (∀ name1 name2 : String,
      (GameController.start s (some name1) (some name2)).player1 = some ⟨name1, "X"⟩ ∧
      (GameController.start s (some name1) (some name2)).player2 = some ⟨name2, "O"⟩) :=
  ⟨rfl, rfl, rfl, rfl, fun _ _ => ⟨rfl, rfl⟩⟩

/-- C16 as stated fails: on the 9-cell board with the row 0,1,2 of `"X"` and the row
3,4,5 of `"O"`, the fixed order returns `"X"` and the order that tests 3,4,5 first
returns `"O"`. -/
theorem checkWin_order_counterexample :
    (["X", "X", "X", "O", "O", "O", "", "", ""] : List String).length = 9 ∧
    (∀ cell ∈ (["X", "X", "X", "O", "O", "O", "", "", ""] : List String),
      cell = "" ∨ cell = "X" ∨ cell = "O") ∧
    List.Perm
      [(3, 4, 5), (0, 1, 2), (6, 7, 8), (0, 3, 6), (1, 4, 7), (2, 5, 8), (0, 4, 8), (2, 4, 6)]
      Gameboard.winPatterns ∧
    Gameboard.checkWin ["X", "X", "X", "O", "O", "O", "", "", ""] = some "X" ∧
    Gameboard.checkWinLoop ["X", "X", "X", "O", "O", "O", "", "", ""]
      [(3, 4, 5), (0, 1, 2), (6, 7, 8), (0, 3, 6), (1, 4, 7), (2, 5, 8), (0, 4, 8), (2, 4, 6)] =
      some "O" := by
  decide

/-- C16, amended. For every board and every permutation of the eight patterns,
whether the loop of `checkWin` returns null does not depend on the order; and on every
board whose uniform non-empty triples all hold the same mark, the returned value does
not depend on the order either. -/
theorem checkWin_order_independent (board : List String) (perm : List (Nat × Nat × Nat))
    (hperm : List.Perm perm Gameboard.winPatterns) :
    (Gameboard.checkWinLoop board perm = none ↔ Gameboard.checkWin board = none) ∧
    ((∀ p ∈ Gameboard.winPatterns, ∀ q ∈ Gameboard.winPatterns,
        Gameboard.uniformLine board p = true → Gameboard.uniformLine board q = true →
        board[p.1]? = board[q.1]?) →
      Gameboard.checkWinLoop board perm = Gameboard.checkWin board) :=
  ⟨Gameboard.checkWinLoop_none_of_perm hperm, fun hsame =>
    Gameboard.checkWinLoop_perm hperm hsame⟩

/-- Witness for C16: the board with the column 0,3,6 of `"X"` and the patterns in
reverse order. -/
theorem checkWin_order_independent_witness :
    List.Perm
      [(2, 4, 6), (0, 4, 8), (2, 5, 8), (1, 4, 7), (0, 3, 6), (6, 7, 8), (3, 4, 5), (0, 1, 2)]
      Gameboard.winPatterns ∧
    (∀ p ∈ Gameboard.winPatterns, ∀ q ∈ Gameboard.winPatterns,
      Gameboard.uniformLine GameController.sampleOver.board p = true →
      Gameboard.uniformLine GameController.sampleOver.board q = true →
      GameController.sampleOver.board[p.1]? = GameController.sampleOver.board[q.1]?) ∧
    Gameboard.checkWinLoop GameController.sampleOver.board
      [(2, 4, 6), (0, 4, 8), (2, 5, 8), (1, 4, 7), (0, 3, 6), (6, 7, 8), (3, 4, 5), (0, 1, 2)] =
      Gameboard.checkWin GameController.sampleOver.board :=
  ⟨by decide, by decide,
    (checkWin_order_independent GameController.sampleOver.board
      [(2, 4, 6), (0, 4, 8), (2, 5, 8), (1, 4, 7), (0, 3, 6), (6, 7, 8), (3, 4, 5), (0, 1, 2)]
      (by decide)).2 (by decide)⟩

/-- C17. In every state reached from `start` by any sequence of `playTurn` calls with
any integer indices (the calls never throw), `isGameOver()` is true iff `checkWin()`
is non-null or `checkTie()` is true, and `isGameOver()` is a boolean; a match that is
not over has an empty cell and no uniform non-empty triple. -/
theorem gameOver_iff_win_or_tie (s : GameState) (name1 name2 : Option String)
    (indices : List Int) :
    ∃ t, GameController.playTurns (GameController.start s name1 name2) indices =
        Except.ok t ∧
      (GameController.isGameOver t = some true ↔
        Gameboard.checkWin t.board ≠ none ∨ Gameboard.checkTie t.board = true) ∧
      (GameController.isGameOver t = some true ∨ GameController.isGameOver t = some false) ∧
      (GameController.isGameOver t = some false →
        (∃ cell ∈ t.board, cell = "") ∧
        ∀ p ∈ Gameboard.winPatterns, Gameboard.uniformLine t.board p = false) := by
  obtain ⟨t, hrun, ht⟩ := consistent_reachable s name1 name2 indices
  have hnot : GameController.isGameOver t = some false →
      Gameboard.checkWin t.board = none ∧ Gameboard.checkTie t.board = false := ht.notOver
  refine ⟨t, hrun, ⟨ht.over, ?_⟩, (consistent_gameOver_cases ht).symm, ?_⟩
  · intro hend
    rcases consistent_gameOver_cases ht with hfalse | htrue
    · obtain ⟨hw, htie⟩ := hnot hfalse
      rcases hend with h | h
      · exact absurd hw h
      · rw [htie] at h
        exact absurd h (by simp)
    · exact htrue
  · intro hfalse
    obtain ⟨hw, htie⟩ := hnot hfalse
    refine ⟨?_, (Gameboard.checkWinLoop_eq_none_iff _ _).mp hw⟩
    by_contra hfull
    have hall : ∀ cell ∈ t.board, cell ≠ "" := fun cell hc he => hfull ⟨cell, hc, he⟩
    have := (Gameboard.checkTie_eq_true_iff t.board).mpr ⟨hall, hw⟩
    rw [htie] at this
    exact absurd this (by simp)

/-- C18. In every state reached from `start` by any sequence of `playTurn` calls
(the calls never throw), the board does not hold a uniform triple of `"X"` together
with a uniform triple of `"O"`, and running the loop of `checkWin` over any
permutation of the eight patterns returns what `checkWin()` returns. -/
theorem no_two_marks_win (s : GameState) (name1 name2 : Option String)
    (indices : List Int) :
    ∃ t, GameController.playTurns (GameController.start s name1 name2) indices =
        Except.ok t ∧
      ¬ ((∃ p ∈ Gameboard.winPatterns, t.board[p.1]? = some "X" ∧
            t.board[p.2.1]? = some "X" ∧ t.board[p.2.2]? = some "X") ∧
         (∃ q ∈ Gameboard.winPatterns, t.board[q.1]? = some "O" ∧
            t.board[q.2.1]? = some "O" ∧ t.board[q.2.2]? = some "O")) ∧
      (∀ perm : List (Nat × Nat × Nat), List.Perm perm Gameboard.winPatterns →
        Gameboard.checkWinLoop t.board perm = Gameboard.checkWin t.board) := by
  obtain ⟨t, hrun, ht⟩ := consistent_reachable s name1 name2 indices
  have hsame := consistent_lines_same ht
  refine ⟨t, hrun, ?_, fun perm hperm => Gameboard.checkWinLoop_perm hperm hsame⟩
  rintro ⟨⟨p, hp, hp1, hp2, hp3⟩, ⟨q, hq, hq1, hq2, hq3⟩⟩
  have hlp : Gameboard.uniformLine t.board p = true :=
    (Gameboard.uniformLine_iff _ _).mpr ⟨"X", by decide, hp1, hp2, hp3⟩
  have hlq : Gameboard.uniformLine t.board q = true :=
    (Gameboard.uniformLine_iff _ _).mpr ⟨"O", by decide, hq1, hq2, hq3⟩
  have := hsame p hp q hq hlp hlq
  rw [hp1, hq1] at this
  exact absurd this (by decide)

/-- C19. On a 9-cell board, `setMark(index, mark)` with an integer index outside [0,9)
returns false and leaves the board unchanged, with its 9 cells; and `playTurn` with
such an index on a started match that is not over returns normally and leaves the
whole state unchanged. -/
theorem out_of_range_index (board : List String) (index : Int) (mark : String)
    (hlen : board.length = 9) (hout : index < 0 ∨ 9 ≤ index) :
    Gameboard.setMark board index mark = (false, board) ∧
    (Gameboard.setMark board index mark).2.length = 9 ∧
    (∀ s : GameState, s.board = board → GameController.started s = true →
      s.gameOver = some false → GameController.playTurn s index = Except.ok s) := by
  have hcell : readCell board index = none := by
    unfold readCell
    rcases hout with hneg | hbig
    · simp [Int.not_le.mpr hneg]
    · have h0 : 0 ≤ index := by omega
      simp only [h0, if_true]
      exact List.getElem?_eq_none (by omega)
  have hset : Gameboard.setMark board index mark = (false, board) := by
    simp [Gameboard.setMark, hcell]
  refine ⟨hset, by rw [hset]; exact hlen, ?_⟩
  intro s hboard hs hover
  obtain ⟨_, player, _, hp⟩ := started_getCurrentPlayer hs
  have hflag : truthyFlag s.gameOver = false := by rw [hover]; rfl
  rw [playTurn_of_not_over index hflag hp, hboard]
  simp [hcell]

/-- Witness for C19: the index -1 on the board of the sample match. -/
theorem out_of_range_index_witness :
    GameController.sampleInProgress.board.length = 9 ∧ ((-1 : Int) < 0 ∨ (9 : Int) ≤ -1) ∧
    Gameboard.setMark GameController.sampleInProgress.board (-1) "X" =
      (false, GameController.sampleInProgress.board) ∧
    (Gameboard.setMark GameController.sampleInProgress.board (-1) "X").2.length = 9 ∧
    (∀ s : GameState, s.board = GameController.sampleInProgress.board →
      GameController.started s = true → s.gameOver = some false →
      GameController.playTurn s (-1) = Except.ok s) :=
  ⟨by decide, by decide,
    out_of_range_index GameController.sampleInProgress.board (-1) "X" (by decide) (by decide)⟩

/-- C20. In every state reached from `start` by any sequence of `playTurn` calls
(the calls never throw), every cell is `""`, `"X"` or `"O"`, the number of `"X"` cells
equals the number of `"O"` cells or exceeds it by one, and whenever `isGameOver()` is
false the mark of the current player is `"X"` iff the counts are equal and `"O"` iff
`"X"` leads by one. -/
theorem marks_and_turn_counts (s : GameState) (name1 name2 : Option String)
    (indices : List Int) :
    ∃ t, GameController.playTurns (GameController.start s name1 name2) indices =
        Except.ok t ∧
      (∀ cell ∈ t.board, cell = "" ∨ cell = "X" ∨ cell = "O") ∧
      (Gameboard.markCount t.board "X" = Gameboard.markCount t.board "O" ∨
        Gameboard.markCount t.board "X" = Gameboard.markCount t.board "O" + 1) ∧
      (GameController.isGameOver t = some false →
        ∃ player, GameController.getCurrentPlayer t = some player ∧
          (player.mark = "X" ↔
            Gameboard.markCount t.board "X" = Gameboard.markCount t.board "O") ∧
          (player.mark = "O" ↔
            Gameboard.markCount t.board "X" = Gameboard.markCount t.board "O" + 1)) := by
  obtain ⟨t, hrun, ht⟩ := consistent_reachable s name1 name2 indices
  refine ⟨t, hrun, ht.cells, ?_, ?_⟩
  · rcases ht.turn with h | h | h | h
    · exact Or.inl h.2.2
    · exact Or.inr h.2.2
    · exact Or.inr h.2.2
    · exact Or.inl h.2.2
  · intro hfalse
    obtain ⟨n1, n2, r, g, hs, _⟩ := started_cases ht.isStarted
    have hturn := ht.turn
    generalize t.board = board at hs hturn
    subst hs
    simp only [GameController.isGameOver] at hfalse
    rcases hturn with h | h | h | h
    · obtain ⟨hr, _, hc⟩ := h
      simp only [Option.some.injEq] at hr
      subst hr
      refine ⟨⟨n1, "X"⟩, rfl, ?_, ?_⟩
      · simp [hc]
      · simp only [hc]
        constructor
        · intro h; exact absurd h (by decide)
        · intro h; omega
    · obtain ⟨hr, _, hc⟩ := h
      simp only [Option.some.injEq] at hr
      subst hr
      refine ⟨⟨n2, "O"⟩, rfl, ?_, ?_⟩
      · simp only [hc]
        constructor
        · intro h; exact absurd h (by decide)
        · intro h; omega
      · simp [hc]
    · have hover : some g = some true := h.2.1
      rw [hover] at hfalse
      exact absurd hfalse (by simp)
    · have hover : some g = some true := h.2.1
      rw [hover] at hfalse
      exact absurd hfalse (by simp)

end TicTacToe
